import Mathlib

/-!
Verification of the document-to-clean-HTML normalization pipeline of the
gcs-admin repository (`src/lib/document-processor.ts`).

The TypeScript source performs sequential regular-expression rewriting over
strings.  Each regex pass is embedded here as an executable function on
`List Char`, faithful to the JavaScript regex semantics of the concrete
patterns in the source (leftmost match, greedy/lazy repetition with the
backtracking behaviour these particular patterns admit, `g`/`i` flags,
scanning resuming after each replacement without rescanning the
replacement).  String-level wrappers mirror the exported functions.
-/

namespace GcsAdmin

/-- The JavaScript `\s` character class (also the character set removed by
`String.prototype.trim`): ASCII whitespace plus the Unicode space
separators, NBSP, BOM and the line/paragraph separators. -/
def isJsWs (c : Char) : Bool :=
  c = ' ' || c = '\t' || c = '\n' || c = '\r' || c = Char.ofNat 11 || c = Char.ofNat 12 ||
  c.val = 160 || c.val = 0x1680 || (0x2000 ≤ c.val && c.val ≤ 0x200a) ||
  c.val = 0x2028 || c.val = 0x2029 || c.val = 0x202f || c.val = 0x205f || c.val = 0x3000 ||
  c.val = 0xfeff

/-- Case-insensitive match of one input character `c` against one pattern
character `p` (the pattern character is given in its lower-case form), as
performed by the regex `i` flag without the `u` flag: an ASCII upper-case
input character is canonicalized by adding 32. -/
def eqCi (p c : Char) : Bool :=
  c = p || ('A' ≤ c && c ≤ 'Z' && Char.ofNat (c.toNat + 32) = p)

/-- Case-insensitive literal-prefix test (pattern given lower-case). -/
def ciPrefix : List Char → List Char → Bool
  | [], _ => true
  | _ :: _, [] => false
  | p :: ps, c :: cs => eqCi p c && ciPrefix ps cs

/-- Index of the first (case-sensitive) occurrence of `pat` as a contiguous
sublist of `l`, as found by a lazy `[\s\S]*?` followed by the literal. -/
def findSub (pat : List Char) : List Char → Option Nat
  | [] => if pat.isPrefixOf [] then some 0 else none
  | c :: rest =>
    if pat.isPrefixOf (c :: rest) then some 0
    else (findSub pat rest).map (· + 1)

/-- Index of the first case-insensitive occurrence of `pat` in `l`. -/
def findSubCi (pat : List Char) : List Char → Option Nat
  | [] => if ciPrefix pat [] then some 0 else none
  | c :: rest =>
    if ciPrefix pat (c :: rest) then some 0
    else (findSubCi pat rest).map (· + 1)

/-- Index of the last case-insensitive occurrence of `pat` in `l` (used by
the greedy `[\s\S]*` of the `<body>` extraction). -/
def findLastSubCi (pat : List Char) : List Char → Option Nat
  | [] => none
  | c :: rest =>
    match findLastSubCi pat rest with
    | some k => some (k + 1)
    | none => if ciPrefix pat (c :: rest) then some 0 else none

/-- First `some` produced by `f` over a list of candidates. -/
def firstSome {α β : Type} (f : α → Option β) : List α → Option β
  | [] => none
  | a :: as => match f a with | some b => some b | none => firstSome f as

/-- Try a match attempt at every position, left to right (the scanning a
non-global regex performs to find its leftmost match). -/
def scanFirst {α : Type} (f : List Char → Option α) : List Char → Option α
  | [] => f []
  | c :: rest => match f (c :: rest) with | some a => some a | none => scanFirst f rest

/-- Global regex replacement driver with explicit fuel.  A `step` attempt at
the current position either fails, or returns the replacement text together
with the number of consumed characters minus one (every pattern of the
source consumes at least one character).  Scanning resumes after the
consumed characters, never rescanning emitted text, exactly like
`String.prototype.replace` with a `g` regex. -/
def rewriteScanF (step : List Char → Option (List Char × Nat)) : Nat → List Char → List Char
  | _, [] => []
  | 0, l => l
  | Nat.succ n, c :: rest =>
    match step (c :: rest) with
    | some (out, k) => out ++ rewriteScanF step n (rest.drop k)
    | none => c :: rewriteScanF step n rest

/-- Global regex replacement (fuel instantiated with the input length, which
always suffices since every step consumes at least one character). -/
def rewriteScan (step : List Char → Option (List Char × Nat)) (l : List Char) : List Char :=
  rewriteScanF step l.length l

/-- Truncate the string at the leftmost position where `hit` matches
(the shape of every `…[\s\S]*$` pass of Step 1: everything from the match
to the end of the string is removed). -/
def truncAtFirst (hit : List Char → Bool) : List Char → List Char
  | [] => []
  | c :: rest => if hit (c :: rest) then [] else c :: truncAtFirst hit rest

/-- Greedy repetition counter with fuel: repeatedly applies `parse` (which
returns consumed characters minus one); returns total consumed characters
and the repetition count. -/
def countRepsF (parse : List Char → Option Nat) : Nat → List Char → Nat × Nat
  | _, [] => (0, 0)
  | 0, _ => (0, 0)
  | Nat.succ n, c :: rest =>
    match parse (c :: rest) with
    | some k =>
      let r := countRepsF parse n (rest.drop k)
      (1 + k + r.1, r.2 + 1)
    | none => (0, 0)

def countReps (parse : List Char → Option Nat) (l : List Char) : Nat × Nat :=
  countRepsF parse l.length l

/-- JavaScript `String.prototype.split` on a single character. -/
def splitOnChar (sep : Char) : List Char → List (List Char)
  | [] => [[]]
  | c :: rest =>
    let r := splitOnChar sep rest
    if c = sep then [] :: r
    else
      match r with
      | h :: t => (c :: h) :: t
      | [] => [[c]]

/-- JavaScript `String.prototype.trim`. -/
def jsTrim (l : List Char) : List Char :=
  ((l.dropWhile isJsWs).reverse.dropWhile isJsWs).reverse

/-- Guard shared by all match attempts whose pattern starts with a literal
`<`: the attempt can only succeed when the current character is `<`. -/
def ltGuard (f : List Char → Option (List Char × Nat)) (l : List Char) :
    Option (List Char × Nat) :=
  if l.head? = some '<' then f l else none

/-! ## `cleanHtml` Step 1: trailing-meta truncation -/

/-- Match of `<hr[^>]*>` at the current position (case-insensitive): literal
`<hr` followed by a later `>`.  The enclosing pass `/<hr[^>]*>[\s\S]*$/gi`
deletes everything from this match to the end of the string. -/
def hrHit (l : List Char) : Bool :=
  ciPrefix "<hr".data l && (l.drop 3).contains '>'

def hrTruncate (l : List Char) : List Char :=
  truncAtFirst hrHit l

def skipWs (l : List Char) : List Char :=
  l.dropWhile isJsWs

/-- Match the label tokens (the source turns each interior whitespace run of
a label into `\s*`, so tokens are separated by optional whitespace),
case-insensitively; returns the rest of the input. -/
def matchToks : List (List Char) → List Char → Option (List Char)
  | [], l => some l
  | t :: ts, l =>
    if ciPrefix t l then matchToks ts (skipWs (l.drop t.length)) else none

/-- The interior `[\s]*TOKENS[\s]*:?[\s]*` of every meta-heading pattern. -/
def labelInner (toks : List (List Char)) (l : List Char) : Option (List Char) :=
  match matchToks toks (skipWs l) with
  | none => none
  | some r =>
    let r1 := skipWs r
    let r2 := if r1.head? = some ':' then r1.drop 1 else r1
    some (skipWs r2)

/-- `<p[^>]*>` (case-insensitive): `<p` followed by attribute characters up
to the first `>`; returns the rest after that `>`. -/
def openTagP (l : List Char) : Option (List Char) :=
  if ciPrefix "<p".data l then
    match List.findIdx? (fun c => c = '>') (l.drop 2) with
    | some j => some (l.drop (2 + j + 1))
    | none => none
  else none

/-- `<h\d[^>]*>` (case-insensitive). -/
def openTagH (l : List Char) : Option (List Char) :=
  match l with
  | '<' :: c :: d :: rest =>
    if eqCi 'h' c && d.isDigit then
      match List.findIdx? (fun x => x = '>') rest with
      | some j => some (rest.drop (j + 1))
      | none => none
    else none
  | _ => none

/-- `<\/h\d>` (case-insensitive; the digit need not match the opening one). -/
def closeTagH (l : List Char) : Bool :=
  match l with
  | '<' :: '/' :: c :: d :: '>' :: _ => eqCi 'h' c && d.isDigit
  | _ => false

/-- `<(?:strong|b)>` (case-insensitive); alternatives tried in order. -/
def boldOpen (l : List Char) : Option (List Char) :=
  if ciPrefix "<strong>".data l then some (l.drop 8)
  else if ciPrefix "<b>".data l then some (l.drop 3)
  else none

/-- `<\/(?:strong|b)>` (case-insensitive; may mismatch the opening form). -/
def boldClose (l : List Char) : Bool :=
  ciPrefix "</strong>".data l || ciPrefix "</b>".data l

/-- `/<p[^>]*>[\s]*L[\s]*:?[\s]*<\/p>[\s\S]*$/gi` matches at this position. -/
def pLabelHit (toks : List (List Char)) (l : List Char) : Bool :=
  match openTagP l with
  | some r =>
    match labelInner toks r with
    | some r2 => ciPrefix "</p>".data r2
    | none => false
  | none => false

/-- `/<h\d[^>]*>[\s]*L[\s]*:?[\s]*<\/h\d>[\s\S]*$/gi` matches here. -/
def hLabelHit (toks : List (List Char)) (l : List Char) : Bool :=
  match openTagH l with
  | some r =>
    match labelInner toks r with
    | some r2 => closeTagH r2
    | none => false
  | none => false

/-- `/<p[^>]*>[\s]*<(?:strong|b)>[\s]*L[\s]*:?[\s]*<\/(?:strong|b)>[\s\S]*$/gi`
matches here (no closing `</p>` is required by the source pattern). -/
def bLabelHit (toks : List (List Char)) (l : List Char) : Bool :=
  match openTagP l with
  | some r =>
    match boldOpen (skipWs r) with
    | some r2 =>
      match labelInner toks r2 with
      | some r3 => boldClose r3
      | none => false
    | none => false
  | none => false

/-- One meta heading: the source applies in order the paragraph pattern,
the heading pattern and the bold-run pattern, each truncating everything
from its leftmost match to the end of the string. -/
def labelPass (toks : List (List Char)) (l : List Char) : List Char :=
  truncAtFirst (bLabelHit toks) (truncAtFirst (hLabelHit toks) (truncAtFirst (pLabelHit toks) l))

/-- The fixed administrative-label list, in source order. -/
def metaHeadings : List String :=
  ["meta information", "meta info", "article meta", "post meta",
   "seo information", "seo info", "seo details", "seo",
   "metadata", "meta data", "article information",
   "keywords", "tags", "categories",
   "notes", "internal notes", "editor notes",
   "---"]

def labelPasses (l : List Char) : List Char :=
  metaHeadings.foldl (fun acc h => labelPass (splitOnChar ' ' h.data) acc) l

def isSepChar (c : Char) : Bool :=
  c = '-' || c = '_' || c = '='

/-- `/[-_=]{3,}[\s\S]*$/g` matches at this position. -/
def sepDashHit (l : List Char) : Bool :=
  match l with
  | a :: b :: c :: _ => isSepChar a && isSepChar b && isSepChar c
  | _ => false

/-- `/\*{3,}[\s\S]*$/g` matches at this position. -/
def sepStarHit (l : List Char) : Bool :=
  match l with
  | a :: b :: c :: _ => a = '*' && b = '*' && c = '*'
  | _ => false

/-- Step 1 of `cleanHtml`: the `<hr>` truncation, then each meta-heading
truncation in list order, then the separator-run truncations. -/
def trailingMetaStage (l : List Char) : List Char :=
  truncAtFirst sepStarHit (truncAtFirst sepDashHit (labelPasses (hrTruncate l)))

/-! ## `cleanHtml` Step 2: tag/attribute allow-listing -/

/-- `/<script[\s\S]*?<\/script>/gi`: `<script` then lazily up to the first
`</script>`; the whole element is removed. -/
def stepScript : List Char → Option (List Char × Nat) :=
  ltGuard fun l =>
    if ciPrefix "<script".data l then
      match findSubCi "</script>".data (l.drop 7) with
      | some k => some ([], 7 + k + 9 - 1)
      | none => none
    else none

/-- `/<style[\s\S]*?<\/style>/gi`. -/
def stepStyle : List Char → Option (List Char × Nat) :=
  ltGuard fun l =>
    if ciPrefix "<style".data l then
      match findSubCi "</style>".data (l.drop 6) with
      | some k => some ([], 6 + k + 8 - 1)
      | none => none
    else none

/-- `/<!--[\s\S]*?-->/g`. -/
def stepComment : List Char → Option (List Char × Nat) :=
  ltGuard fun l =>
    if "<!--".data.isPrefixOf l then
      match findSub "-->".data (l.drop 4) with
      | some k => some ([], 4 + k + 3 - 1)
      | none => none
    else none

/-- Candidate positions for a literal (matched case-insensitively) preceded
only by characters other than `stop` — the positions a greedy
`[^stop]*LITERAL` can place the literal at, in increasing order. -/
def candsBefore (pat : List Char) (stop : Char) : List Char → List Nat
  | [] => []
  | c :: rest =>
    let tailC := if c = stop then [] else (candsBefore pat stop rest).map (· + 1)
    if ciPrefix pat (c :: rest) then 0 :: tailC else tailC

/-- `/<a\s+[^>]*href=["']([^"']*)["'][^>]*>/gi` replaced by `<a href="$1">`.
The greedy `[^>]*` tries the rightmost `href=` before the first `>` first
and backtracks leftwards; the quotes need not match each other; the
captured `[^"']*` may cross `>`. -/
def stepAnchor : List Char → Option (List Char × Nat) :=
  ltGuard fun l =>
    if ciPrefix "<a".data l then
      let r := l.drop 2
      match r.head? with
      | some w =>
        if isJsWs w then
          firstSome (fun p =>
            let afterH := r.drop (p + 5)
            match afterH.head? with
            | some q =>
              if q = '"' || q = '\'' then
                let cap := (afterH.drop 1).takeWhile (fun c => !(c = '"' || c = '\''))
                let rest1 := (afterH.drop 1).drop cap.length
                match rest1.head? with
                | some q2 =>
                  if q2 = '"' || q2 = '\'' then
                    match List.findIdx? (fun c => c = '>') (rest1.drop 1) with
                    | some j =>
                      some ("<a href=\"".data ++ cap ++ "\">".data,
                            2 + p + 5 + 1 + cap.length + 1 + j + 1 - 1)
                    | none => none
                  else none
                | none => none
              else none
            | none => none)
            (candsBefore "href=".data '>' r).reverse
        else none
      | none => none
    else none

/-- One alternative of the attribute-stripping alternation: literal tag
name (case-insensitive), then `\s+[^>]*>`; the replacement `<$1>` keeps the
name as captured from the input. -/
def attrNameBranch (nm : List Char) (r : List Char) : Option (List Char × Nat) :=
  if ciPrefix nm r then
    let actual := r.take nm.length
    let r2 := r.drop nm.length
    match r2.head? with
    | some w =>
      if isJsWs w then
        match List.findIdx? (fun c => c = '>') r2 with
        | some j => some ('<' :: (actual ++ ['>']), 1 + nm.length + j + 1 - 1)
        | none => none
      else none
    | none => none
  else none

/-- The `h[1-6]` alternative. -/
def attrHBranch (r : List Char) : Option (List Char × Nat) :=
  match r with
  | c :: d :: r2 =>
    if eqCi 'h' c && ('1' ≤ d && d ≤ '6') then
      match r2.head? with
      | some w =>
        if isJsWs w then
          match List.findIdx? (fun x => x = '>') r2 with
          | some j => some ('<' :: c :: d :: ['>'], 1 + 2 + j + 1 - 1)
          | none => none
        else none
      | none => none
    else none
  | _ => none

/-- `/<(p|h[1-6]|strong|b|em|i|ul|ol|li|br|div|span)\s+[^>]*>/gi` → `<$1>`;
alternatives tried in source order. -/
def stepAttrs : List Char → Option (List Char × Nat) :=
  ltGuard fun l =>
    let r := l.drop 1
    (attrNameBranch "p".data r) <|> attrHBranch r <|>
    (attrNameBranch "strong".data r) <|> (attrNameBranch "b".data r) <|>
    (attrNameBranch "em".data r) <|> (attrNameBranch "i".data r) <|>
    (attrNameBranch "ul".data r) <|> (attrNameBranch "ol".data r) <|>
    (attrNameBranch "li".data r) <|> (attrNameBranch "br".data r) <|>
    (attrNameBranch "div".data r) <|> (attrNameBranch "span".data r)

/-- `/<div[^>]*>/gi` → `<p>`. -/
def stepDivOpen : List Char → Option (List Char × Nat) :=
  ltGuard fun l =>
    if ciPrefix "<div".data l then
      match List.findIdx? (fun c => c = '>') (l.drop 4) with
      | some j => some ("<p>".data, 4 + j + 1 - 1)
      | none => none
    else none

/-- `/<\/div>/gi` → `</p>`. -/
def stepDivClose : List Char → Option (List Char × Nat) :=
  ltGuard fun l =>
    if ciPrefix "</div>".data l then some ("</p>".data, 5) else none

/-- `/<span[^>]*>/gi` → removed. -/
def stepSpanOpen : List Char → Option (List Char × Nat) :=
  ltGuard fun l =>
    if ciPrefix "<span".data l then
      match List.findIdx? (fun c => c = '>') (l.drop 5) with
      | some j => some ([], 5 + j + 1 - 1)
      | none => none
    else none

/-- `/<\/span>/gi` → removed. -/
def stepSpanClose : List Char → Option (List Char × Nat) :=
  ltGuard fun l =>
    if ciPrefix "</span>".data l then some ([], 6) else none

def isTagStartChar (c : Char) : Bool :=
  ('a' ≤ c && c ≤ 'z') || ('A' ≤ c && c ≤ 'Z')

def isTagNameChar (c : Char) : Bool :=
  ('a' ≤ c && c ≤ 'z') || ('A' ≤ c && c ≤ 'Z') || ('0' ≤ c && c ≤ '9')

/-- The regex `\w` class (word characters, for the `\b` boundary). -/
def isWordChar (c : Char) : Bool :=
  isTagNameChar c || c = '_'

def lowerChar (c : Char) : Char :=
  if 'A' ≤ c && c ≤ 'Z' then Char.ofNat (c.toNat + 32) else c

/-- The allow-list of the final tag filter, as in the source. -/
def allowedTags : List String :=
  ["p", "h1", "h2", "h3", "h4", "h5", "h6", "strong", "b", "em", "i",
   "ul", "ol", "li", "br", "a"]

/-- `/<\/?([a-z][a-z0-9]*)\b[^>]*>/gi` with a function replacement that
keeps the whole match when the lower-cased name is allow-listed and deletes
it otherwise.  The maximal letter-digit name must be followed by a non-word
character (so a following `_` blocks the word boundary entirely). -/
def stepTagFilter : List Char → Option (List Char × Nat) :=
  ltGuard fun l =>
    let r := l.drop 1
    let sl := if r.head? = some '/' then 1 else 0
    let r1 := r.drop sl
    match r1.head? with
    | some c0 =>
      if isTagStartChar c0 then
        let nm := c0 :: (r1.drop 1).takeWhile isTagNameChar
        let r2 := r1.drop nm.length
        let boundaryOk := match r2.head? with
          | some c2 => !isWordChar c2
          | none => true
        if boundaryOk then
          match List.findIdx? (fun c => c = '>') r2 with
          | some j =>
            let total := 1 + sl + nm.length + j + 1
            if allowedTags.contains (String.mk (nm.map lowerChar)) then
              some (l.take total, total - 1)
            else
              some ([], total - 1)
          | none => none
        else none
      else none
    | none => none

/-! ## `cleanHtml` Steps 3 and 4: whitespace cleanup, leading-noise trim -/

/-- `/[ \t]+/g` → a single space. -/
def stepSpacesTabs (l : List Char) : Option (List Char × Nat) :=
  match l.head? with
  | some c =>
    if c = ' ' || c = '\t' then
      some ([' '], (l.takeWhile (fun x => x = ' ' || x = '\t')).length - 1)
    else none
  | none => none

/-- `/>\s+/g` → `>`. -/
def stepGtWs (l : List Char) : Option (List Char × Nat) :=
  if l.head? = some '>' then
    let run := (l.drop 1).takeWhile isJsWs
    if run.length = 0 then none else some (['>'], run.length)
  else none

/-- `/\s+</g` → `<`. -/
def stepWsLt (l : List Char) : Option (List Char × Nat) :=
  match l.head? with
  | some c =>
    if isJsWs c then
      let run := l.takeWhile isJsWs
      if (l.drop run.length).head? = some '<' then some (['<'], run.length) else none
    else none
  | none => none

/-- `/<p><\/p>/gi` → removed. -/
def stepEmptyP1 : List Char → Option (List Char × Nat) :=
  ltGuard fun l =>
    if ciPrefix "<p></p>".data l then some ([], 6) else none

/-- `/<p>\s*<\/p>/gi` → removed. -/
def stepEmptyP2 : List Char → Option (List Char × Nat) :=
  ltGuard fun l =>
    if ciPrefix "<p>".data l then
      let w := (l.drop 3).takeWhile isJsWs
      if ciPrefix "</p>".data (l.drop (3 + w.length)) then
        some ([], 3 + w.length + 4 - 1)
      else none
    else none

/-- One repetition `<br\s*\/?>\s*` of the break-collapsing pattern
(case-insensitive); returns consumed characters minus one. -/
def parseBr (l : List Char) : Option Nat :=
  if ciPrefix "<br".data l then
    let w := (l.drop 3).takeWhile isJsWs
    let r := l.drop (3 + w.length)
    let s := if r.head? = some '/' then 1 else 0
    if (r.drop s).head? = some '>' then
      let t := ((r.drop s).drop 1).takeWhile isJsWs
      some (3 + w.length + s + 1 + t.length - 1)
    else none
  else none

/-- `/(<br\s*\/?>\s*){3,}/gi` → `<br><br>`. -/
def stepBrCollapse : List Char → Option (List Char × Nat) :=
  ltGuard fun l =>
    let r := countReps parseBr l
    if 3 ≤ r.2 then some ("<br><br>".data, r.1 - 1) else none

/-- One repetition `<\/p>\s*<p>` of the paragraph-chain pattern. -/
def parsePP (l : List Char) : Option Nat :=
  if ciPrefix "</p>".data l then
    let w := (l.drop 4).takeWhile isJsWs
    if ciPrefix "<p>".data (l.drop (4 + w.length)) then
      some (4 + w.length + 3 - 1)
    else none
  else none

/-- `/(<\/p>\s*<p>)+/gi` → a single `</p><p>`. -/
def stepPChain : List Char → Option (List Char × Nat) :=
  ltGuard fun l =>
    let r := countReps parsePP l
    if 1 ≤ r.2 then some ("</p><p>".data, r.1 - 1) else none

/-- `/<\/p><p>/g` → `</p>\n\n<p>` (case-sensitive). -/
def stepPPSpacing : List Char → Option (List Char × Nat) :=
  ltGuard fun l =>
    if "</p><p>".data.isPrefixOf l then some ("</p>\n\n<p>".data, 6) else none

/-- `/<\/h(\d)><p>/g` → `</h$1>\n\n<p>` (case-sensitive). -/
def stepHPSpacing : List Char → Option (List Char × Nat) :=
  ltGuard fun l =>
    match l with
    | '<' :: '/' :: 'h' :: d :: '>' :: '<' :: 'p' :: '>' :: _ =>
      if d.isDigit then some ("</h".data ++ d :: ">\n\n<p>".data, 7) else none
    | _ => none

/-- `/<\/p><h(\d)>/g` → `</p>\n\n<h$1>` (case-sensitive). -/
def stepPHSpacing : List Char → Option (List Char × Nat) :=
  ltGuard fun l =>
    match l with
    | '<' :: '/' :: 'p' :: '>' :: '<' :: 'h' :: d :: '>' :: _ =>
      if d.isDigit then some ("</p>\n\n<h".data ++ d :: ['>'], 7) else none
    | _ => none

/-- The Markup Normalizer `cleanHtml`, pass for pass in source order. -/
def cleanHtmlL (l : List Char) : List Char :=
  let c1 := trailingMetaStage l
  let c2 := rewriteScan stepScript c1
  let c3 := rewriteScan stepStyle c2
  let c4 := rewriteScan stepComment c3
  let c5 := rewriteScan stepAnchor c4
  let c6 := rewriteScan stepAttrs c5
  let c7 := rewriteScan stepDivOpen c6
  let c8 := rewriteScan stepDivClose c7
  let c9 := rewriteScan stepSpanOpen c8
  let c10 := rewriteScan stepSpanClose c9
  let c11 := rewriteScan stepTagFilter c10
  let c12 := rewriteScan stepSpacesTabs c11
  let c13 := rewriteScan stepGtWs c12
  let c14 := rewriteScan stepWsLt c13
  let c15 := rewriteScan stepEmptyP1 c14
  let c16 := rewriteScan stepEmptyP2 c15
  let c17 := rewriteScan stepBrCollapse c16
  let c18 := rewriteScan stepPChain c17
  let c19 := rewriteScan stepPPSpacing c18
  let c20 := rewriteScan stepHPSpacing c19
  let c21 := rewriteScan stepPHSpacing c20
  let c22 := c21.dropWhile (fun c => !(c = '<'))
  jsTrim c22

def cleanHtml (s : String) : String :=
  String.mk (cleanHtmlL s.data)

/-! ## `cleanGoogleDocsHtml` -/

/-- The non-global `/<body[^>]*>([\s\S]*)<\/body>/i` attempt at one
position: `<body`, first `>`, then a greedy interior up to the last
`</body>`. -/
def bodyAttempt (l : List Char) : Option (List Char) :=
  if ciPrefix "<body".data l then
    match List.findIdx? (fun c => c = '>') (l.drop 5) with
    | some j =>
      let inner := l.drop (5 + j + 1)
      match findLastSubCi "</body>".data inner with
      | some k => some (inner.take k)
      | none => none
    | none => none
  else none

/-- The common tail `[^>]*class="[^"]*NEEDLE[^"]*"[^>]*>` with backtracking
over the greedy `[^>]*` (rightmost `class="` before the first `>` first)
and the greedy `[^"]*` (rightmost needle before the next `"` first);
then, when `closeTag` is given, a lazy `[\s\S]*?` up to its first
occurrence.  `r` is the input after the open-tag literal of length
`preLen`; returns the total consumed length of the whole match. -/
def classAttrTail (r : List Char) (preLen : Nat) (needle : List Char)
    (closeTag : Option (List Char)) : Option Nat :=
  firstSome (fun p =>
    let s1 := r.drop (p + 7)
    firstSome (fun q =>
      let s2 := s1.drop (q + needle.length)
      match List.findIdx? (fun c => c = '"') s2 with
      | some j1 =>
        let s3 := s2.drop (j1 + 1)
        match List.findIdx? (fun c => c = '>') s3 with
        | some j2 =>
          let base := preLen + p + 7 + q + needle.length + j1 + 1 + j2 + 1
          match closeTag with
          | none => some base
          | some ct =>
            match findSubCi ct (s3.drop (j2 + 1)) with
            | some k => some (base + k + ct.length)
            | none => none
        | none => none
      | none => none)
      (candsBefore needle '"' s1).reverse)
    (candsBefore "class=\"".data '>' r).reverse

/-- `/<p[^>]*class="[^"]*title[^"]*"[^>]*>[\s\S]*?<\/p>/gi` → removed. -/
def stepPTitle : List Char → Option (List Char × Nat) :=
  ltGuard fun l =>
    if ciPrefix "<p".data l then
      (classAttrTail (l.drop 2) 2 "title".data (some "</p>".data)).map (fun t => ([], t - 1))
    else none

/-- `/<h1[^>]*class="[^"]*title[^"]*"[^>]*>[\s\S]*?<\/h1>/gi` → removed. -/
def stepH1Title : List Char → Option (List Char × Nat) :=
  ltGuard fun l =>
    if ciPrefix "<h1".data l then
      (classAttrTail (l.drop 3) 3 "title".data (some "</h1>".data)).map (fun t => ([], t - 1))
    else none

/-- `/<div[^>]*class="[^"]*doc-content[^"]*"[^>]*>/gi` → removed. -/
def stepDocContentDiv : List Char → Option (List Char × Nat) :=
  ltGuard fun l =>
    if ciPrefix "<div".data l then
      (classAttrTail (l.drop 4) 4 "doc-content".data none).map (fun t => ([], t - 1))
    else none

/-- Google-Docs-specific pre-cleaning followed by the standard `cleanHtml`. -/
def cleanGoogleDocsHtml (s : String) : String :=
  let content := match scanFirst bodyAttempt s.data with
    | some inner => inner
    | none => s.data
  let c2 := rewriteScan stepPTitle content
  let c3 := rewriteScan stepH1Title c2
  let c4 := rewriteScan stepDocContentDiv c3
  String.mk (cleanHtmlL c4)

/-! ## Frontmatter: `processMarkdown` and `extractFrontmatter` -/

/-- The match of `/^---\n[\s\S]*?\n---\n/` used by `processMarkdown`: when
the input starts with `---\n`, the lazy interior length up to the first
`\n---\n`. -/
def stripFmMatch (l : List Char) : Option Nat :=
  if "---\n".data.isPrefixOf l then findSub "\n---\n".data (l.drop 4) else none

/-- `processMarkdown`: strip the frontmatter block when present, trim. -/
def processMarkdown (s : String) : String :=
  match stripFmMatch s.data with
  | some k => String.mk (jsTrim ((s.data.drop 4).drop (k + 5)))
  | none => String.mk (jsTrim s.data)

/-- The match of the pattern `^---\n([\s\S]*?)\n---` used by
`extractFrontmatter` (note: unlike `processMarkdown`, no trailing newline
after the closing delimiter is required). -/
def extractFmMatch (l : List Char) : Option Nat :=
  if "---\n".data.isPrefixOf l then findSub "\n---".data (l.drop 4) else none

/-- JavaScript object assignment `fm[key] = value` on string keys:
overwrite in place when present, append otherwise. -/
def upsert (k v : String) : List (String × String) → List (String × String)
  | [] => [(k, v)]
  | (k', v') :: rest => if k' = k then (k, v) :: rest else (k', v') :: upsert k v rest

/-- Strip one leading and one trailing quote character
(`/^["']|["']$/g`). -/
def stripQuotes (l : List Char) : List Char :=
  let v1 := match l.head? with
    | some c => if c = '"' || c = '\'' then l.drop 1 else l
    | none => l
  match v1.getLast? with
  | some c => if c = '"' || c = '\'' then v1.dropLast else v1
  | none => v1

/-- `extractFrontmatter`: parse the leading block into key/value pairs,
splitting each line at its first `:` (skipped when the colon is absent or
at position 0), trimming both sides and stripping surrounding quotes from
the value; `none` when no block is present. -/
def extractFrontmatter (s : String) : Option (List (String × String)) :=
  match extractFmMatch s.data with
  | none => none
  | some k =>
    let interior := (s.data.drop 4).take k
    some ((splitOnChar '\n' interior).foldl (fun acc line =>
      match List.findIdx? (fun c => c = ':') line with
      | some i =>
        if 0 < i then
          upsert (String.mk (jsTrim (line.take i)))
                 (String.mk (stripQuotes (jsTrim (line.drop (i + 1))))) acc
        else acc
      | none => acc) [])

/-! ## `processDocument` dispatcher -/

/-- Suffix test mirroring `fileName.endsWith('.md')`. -/
def strEndsWith (s suffix : String) : Bool :=
  suffix.data.isSuffixOf s.data

/-- Outcome of the format dispatcher.  The Word and PDF branches invoke
external collaborators (mammoth, pdf-parse) on binary content and are
represented abstractly; the other branches carry the computed string. -/
inductive ProcResult where
  | gdoc (out : String)
  | word
  | pdf
  | text (out : String)
  | unsupported (msg : String)
deriving DecidableEq, Repr

def ProcResult.isUnsupported : ProcResult → Bool
  | .unsupported _ => true
  | _ => false

/-- The seven content-type strings the dispatcher recognizes. -/
def recognizedTypes : List String :=
  ["application/vnd.google-apps.document",
   "application/vnd.openxmlformats-officedocument.wordprocessingml.document",
   "application/msword",
   "application/pdf",
   "text/markdown",
   "text/x-markdown",
   "text/plain"]

/-- `processDocument`, branch for branch in source order: Google Docs are
routed through `cleanGoogleDocsHtml`; Word and PDF to their collaborators;
markdown through `processMarkdown`; plain text is returned as-is; an
unrecognized type falls back to the `.md` extension or fails. -/
def processDocument (content mimeType fileName : String) : ProcResult :=
  if mimeType = "application/vnd.google-apps.document" then
    .gdoc (cleanGoogleDocsHtml content)
  else if mimeType = "application/vnd.openxmlformats-officedocument.wordprocessingml.document" then
    .word
  else if mimeType = "application/msword" then
    .word
  else if mimeType = "application/pdf" then
    .pdf
  else if mimeType = "text/markdown" then
    .text (processMarkdown content)
  else if mimeType = "text/x-markdown" then
    .text (processMarkdown content)
  else if mimeType = "text/plain" then
    .text content
  else if strEndsWith fileName ".md" then
    .text (processMarkdown content)
  else
    .unsupported ("Unsupported file type: " ++ mimeType)

/-! ## `extractTitleFromContent` -/

structure TitleExtractionResult where
  title : Option String
  contentWithoutTitle : String
deriving DecidableEq, Repr

/-- The `/<hN[^>]*>([\s\S]*?)<\/hN>/i` attempt at one position; returns
the whole match and the captured interior. -/
def headingAttempt (openPat closePat : List Char) (l : List Char) :
    Option (List Char × List Char) :=
  if ciPrefix openPat l then
    match List.findIdx? (fun c => c = '>') (l.drop openPat.length) with
    | some j =>
      let inner0 := l.drop (openPat.length + j + 1)
      match findSubCi closePat inner0 with
      | some k =>
        some (l.take (openPat.length + j + 1 + k + closePat.length), inner0.take k)
      | none => none
    | none => none
  else none

def firstH1 (l : List Char) : Option (List Char × List Char) :=
  scanFirst (headingAttempt "<h1".data "</h1>".data) l

def firstH2 (l : List Char) : Option (List Char × List Char) :=
  scanFirst (headingAttempt "<h2".data "</h2>".data) l

/-- `const match = h1Match || h2Match`. -/
def chosenHeading (l : List Char) : Option (List Char × List Char) :=
  match firstH1 l with
  | some m => some m
  | none => firstH2 l

/-- `/<[^>]+>/g` → removed (nested-tag stripping inside the heading). -/
def stepStripTag : List Char → Option (List Char × Nat) :=
  ltGuard fun l =>
    match List.findIdx? (fun c => c = '>') (l.drop 1) with
    | some j => if 1 ≤ j then some ([], j + 1) else none
    | none => none

def stripInnerTags (l : List Char) : List Char :=
  rewriteScan stepStripTag l

/-- Global literal replacement (each entity pass). -/
def replaceAllSub (pat out : List Char) (l : List Char) : List Char :=
  rewriteScan (fun l' => if pat.isPrefixOf l' then some (out, pat.length - 1) else none) l

/-- The six sequential entity replacements, in source order. -/
def decodeEntities (l : List Char) : List Char :=
  replaceAllSub "&#39;".data "'".data
    (replaceAllSub "&quot;".data "\"".data
      (replaceAllSub "&gt;".data ">".data
        (replaceAllSub "&lt;".data "<".data
          (replaceAllSub "&amp;".data "&".data
            (replaceAllSub "&nbsp;".data " ".data l)))))

/-- First-occurrence literal removal (`html.replace(match[0], '')` with a
string pattern). -/
def replaceFirstSub (pat l : List Char) : List Char :=
  match findSub pat l with
  | some i => l.take i ++ l.drop (i + pat.length)
  | none => l

/-- The Title Extractor: prefer the first `h1`, else the first `h2`;
derive the title from the interior (tags stripped, entities decoded,
trimmed, empty becoming `null`); remove the first textual occurrence of
the whole matched element from the body and trim. -/
def extractTitleFromContent (html : String) : TitleExtractionResult :=
  match chosenHeading html.data with
  | none => ⟨none, html⟩
  | some m =>
    let t := jsTrim (decodeEntities (stripInnerTags m.2))
    { title := if t = [] then none else some (String.mk t),
      contentWithoutTitle := String.mk (jsTrim (replaceFirstSub m.1 html.data)) }

/-! ## Observations used by the claims -/

/-- Decidable substring test (case-sensitive), for stating containment
properties of outputs. -/
def hasSub (pat s : String) : Bool :=
  (findSub pat.data s.data).isSome

/-- The tag name the final allow-list filter would parse at this position,
if any (lower-cased): the code's own notion of a tag-shaped substring. -/
def tagNameAt (l : List Char) : Option String :=
  if l.head? = some '<' then
    let r := l.drop 1
    let sl := if r.head? = some '/' then 1 else 0
    let r1 := r.drop sl
    match r1.head? with
    | some c0 =>
      if isTagStartChar c0 then
        let nm := c0 :: (r1.drop 1).takeWhile isTagNameChar
        let r2 := r1.drop nm.length
        let boundaryOk := match r2.head? with
          | some c2 => !isWordChar c2
          | none => true
        if boundaryOk then
          match List.findIdx? (fun c => c = '>') r2 with
          | some _ => some (String.mk (nm.map lowerChar))
          | none => none
        else none
      else none
    | none => none
  else none

/-- Markup is restricted to the allowed tag set: every tag-shaped substring
carries an allow-listed name. -/
def onlyAllowedTags : List Char → Bool
  | [] => true
  | c :: rest =>
    (match tagNameAt (c :: rest) with
     | some nm => allowedTags.contains nm
     | none => true) && onlyAllowedTags rest

/-! ## General lemmas about the combinators -/

theorem truncAtFirst_prefixOf (hit : List Char → Bool) :
    ∀ l : List Char, truncAtFirst hit l <+: l := by
  intro l
  induction l with
  | nil => exact List.nil_prefix ..
  | cons c rest ih =>
    rw [truncAtFirst]
    split
    · exact List.nil_prefix ..
    · obtain ⟨t, ht⟩ := ih
      exact ⟨t, by rw [List.cons_append, ht]⟩

theorem labelPass_prefixOf (toks : List (List Char)) (l : List Char) :
    labelPass toks l <+: l :=
  ((truncAtFirst_prefixOf _ _).trans (truncAtFirst_prefixOf _ _)).trans (truncAtFirst_prefixOf _ _)

theorem labelPasses_prefixOf : ∀ (hs : List String) (l : List Char),
    hs.foldl (fun acc h => labelPass (splitOnChar ' ' h.data) acc) l <+: l := by
  intro hs
  induction hs with
  | nil => intro l; exact List.prefix_refl _
  | cons h rest ih =>
    intro l
    exact (ih _).trans (labelPass_prefixOf _ l)

theorem trailingMetaStage_prefixOf (l : List Char) : trailingMetaStage l <+: l := by
  unfold trailingMetaStage labelPasses hrTruncate
  exact ((truncAtFirst_prefixOf _ _).trans (truncAtFirst_prefixOf _ _)).trans
    ((labelPasses_prefixOf _ _).trans (truncAtFirst_prefixOf _ _))

theorem rewriteScanF_not_mem (step : List Char → Option (List Char × Nat)) (a : Char)
    (hstep : ∀ l out k, a ∉ l → step l = some (out, k) → a ∉ out) :
    ∀ (n : Nat) (l : List Char), a ∉ l → a ∉ rewriteScanF step n l := by
  intro n
  induction n with
  | zero =>
    intro l h
    match l with
    | [] => simp [rewriteScanF]
    | c :: rest => exact h
  | succ n ih =>
    intro l h
    match l with
    | [] => simp [rewriteScanF]
    | c :: rest =>
      rw [rewriteScanF]
      cases hs : step (c :: rest) with
      | none =>
        intro hmem
        rcases List.mem_cons.mp hmem with h1 | h1
        · exact h (h1 ▸ List.mem_cons_self c rest)
        · exact ih rest (fun hr => h (List.mem_cons_of_mem c hr)) h1
      | some p =>
        intro hmem
        rcases List.mem_append.mp hmem with h1 | h1
        · exact hstep _ _ _ h (by rw [hs]) h1
        · exact ih (rest.drop p.2)
            (fun hr => h (List.mem_cons_of_mem c (List.mem_of_mem_drop hr))) h1

theorem rewriteScan_not_mem (step : List Char → Option (List Char × Nat)) (a : Char)
    (hstep : ∀ l out k, a ∉ l → step l = some (out, k) → a ∉ out)
    {l : List Char} (h : a ∉ l) : a ∉ rewriteScan step l :=
  rewriteScanF_not_mem step a hstep l.length l h

theorem ltGuard_some_mem {f : List Char → Option (List Char × Nat)} {l : List Char}
    {r : List Char × Nat} (h : ltGuard f l = some r) : '<' ∈ l := by
  unfold ltGuard at h
  split at h
  · next hh =>
    match l, hh with
    | c :: rest, hh =>
      have : c = '<' := by simpa using hh
      exact this ▸ List.mem_cons_self c rest
  · exact absurd h (by simp)

/-- Any pass guarded on a leading `<` emits nothing on input without `<`. -/
theorem guard_no_lt {f : List Char → Option (List Char × Nat)} :
    ∀ l out k, '<' ∉ l → ltGuard f l = some (out, k) → '<' ∉ out :=
  fun _ _ _ hl hs => absurd (ltGuard_some_mem hs) hl

theorem stepSpacesTabs_no_lt :
    ∀ l out k, '<' ∉ l → stepSpacesTabs l = some (out, k) → '<' ∉ out := by
  intro l out k _ h
  unfold stepSpacesTabs at h
  match l with
  | [] => simp at h
  | c :: rest =>
    simp only [List.head?_cons] at h
    split at h
    · simp only [Option.some.injEq, Prod.mk.injEq] at h
      obtain ⟨h1, -⟩ := h
      subst h1
      decide
    · exact absurd h (by simp)

theorem stepGtWs_no_lt :
    ∀ l out k, '<' ∉ l → stepGtWs l = some (out, k) → '<' ∉ out := by
  intro l out k _ h
  unfold stepGtWs at h
  simp only [] at h
  split at h
  · split at h
    · exact absurd h (by simp)
    · simp only [Option.some.injEq, Prod.mk.injEq] at h
      obtain ⟨h1, -⟩ := h
      subst h1
      decide
  · exact absurd h (by simp)

theorem stepWsLt_no_lt :
    ∀ l out k, '<' ∉ l → stepWsLt l = some (out, k) → '<' ∉ out := by
  intro l out k hl h
  exfalso
  unfold stepWsLt at h
  match l with
  | [] => simp at h
  | c :: rest =>
    simp only [List.head?_cons] at h
    split at h
    · split at h
      · next hcond =>
        apply hl
        obtain ⟨t, ht⟩ : ∃ t,
            (c :: rest).drop ((c :: rest).takeWhile isJsWs).length = '<' :: t := by
          cases hd : (c :: rest).drop ((c :: rest).takeWhile isJsWs).length with
          | nil => rw [hd] at hcond; simp at hcond
          | cons x xs =>
            rw [hd] at hcond
            simp only [List.head?_cons, Option.some.injEq] at hcond
            exact ⟨xs, by rw [hcond]⟩
        exact List.mem_of_mem_drop (ht ▸ List.mem_cons_self '<' t)
      · exact absurd h (by simp)
    · exact absurd h (by simp)

theorem dropWhile_nil_of_no_lt :
    ∀ l : List Char, '<' ∉ l → l.dropWhile (fun c => !(c = '<')) = [] := by
  intro l h
  induction l with
  | nil => rfl
  | cons c rest ih =>
    have hc : ¬ c = '<' := fun hc => h (hc ▸ List.mem_cons_self c rest)
    rw [List.dropWhile_cons, if_pos (by simp [hc])]
    exact ih (fun hr => h (List.mem_cons_of_mem c hr))

/-- Claim C10 auxiliary: every pass of `cleanHtml` preserves the absence of
`<`, and the leading-noise trim then deletes the entire remainder. -/
theorem cleanHtmlL_no_lt_nil (l : List Char) (h : '<' ∉ l) : cleanHtmlL l = [] := by
  have h1 : '<' ∉ trailingMetaStage l :=
    fun hm => h ((trailingMetaStage_prefixOf l).subset hm)
  have h2 := rewriteScan_not_mem stepScript '<' guard_no_lt h1
  have h3 := rewriteScan_not_mem stepStyle '<' guard_no_lt h2
  have h4 := rewriteScan_not_mem stepComment '<' guard_no_lt h3
  have h5 := rewriteScan_not_mem stepAnchor '<' guard_no_lt h4
  have h6 := rewriteScan_not_mem stepAttrs '<' guard_no_lt h5
  have h7 := rewriteScan_not_mem stepDivOpen '<' guard_no_lt h6
  have h8 := rewriteScan_not_mem stepDivClose '<' guard_no_lt h7
  have h9 := rewriteScan_not_mem stepSpanOpen '<' guard_no_lt h8
  have h10 := rewriteScan_not_mem stepSpanClose '<' guard_no_lt h9
  have h11 := rewriteScan_not_mem stepTagFilter '<' guard_no_lt h10
  have h12 := rewriteScan_not_mem stepSpacesTabs '<' stepSpacesTabs_no_lt h11
  have h13 := rewriteScan_not_mem stepGtWs '<' stepGtWs_no_lt h12
  have h14 := rewriteScan_not_mem stepWsLt '<' stepWsLt_no_lt h13
  have h15 := rewriteScan_not_mem stepEmptyP1 '<' guard_no_lt h14
  have h16 := rewriteScan_not_mem stepEmptyP2 '<' guard_no_lt h15
  have h17 := rewriteScan_not_mem stepBrCollapse '<' guard_no_lt h16
  have h18 := rewriteScan_not_mem stepPChain '<' guard_no_lt h17
  have h19 := rewriteScan_not_mem stepPPSpacing '<' guard_no_lt h18
  have h20 := rewriteScan_not_mem stepHPSpacing '<' guard_no_lt h19
  have h21 := rewriteScan_not_mem stepPHSpacing '<' guard_no_lt h20
  unfold cleanHtmlL
  simp only [dropWhile_nil_of_no_lt _ h21]
  rfl

/-- Boolean-level transitivity of `List.isPrefixOf`. -/
theorem isPrefixOf_trans :
    ∀ (p q l : List Char), p.isPrefixOf q = true → q.isPrefixOf l = true →
      p.isPrefixOf l = true := by
  intro p
  induction p with
  | nil => intro q l _ _; simp [List.isPrefixOf]
  | cons a as ih =>
    intro q l hpq hql
    match q, l with
    | [], _ => simp [List.isPrefixOf] at hpq
    | _ :: _, [] => simp [List.isPrefixOf] at hql
    | b :: bs, c :: cs =>
      simp only [List.isPrefixOf, Bool.and_eq_true, beq_iff_eq] at hpq hql ⊢
      exact ⟨hpq.1.trans hql.1, ih bs cs hpq.2 hql.2⟩

/-- If a pattern occurs as a sublist, so does any of its prefixes. -/
theorem findSub_isSome_mono (p q : List Char) (hpq : p.isPrefixOf q = true) :
    ∀ l, (findSub q l).isSome = true → (findSub p l).isSome = true := by
  intro l
  induction l with
  | nil =>
    rw [findSub, findSub]
    split
    · next hq =>
      intro
      rw [if_pos (isPrefixOf_trans p q [] hpq hq)]
      rfl
    · simp
  | cons c rest ih =>
    rw [findSub, findSub]
    split
    · next hq =>
      intro
      rw [if_pos (isPrefixOf_trans p q (c :: rest) hpq hq)]
      rfl
    · intro h
      split
      · rfl
      · simpa using ih (by simpa using h)

/-! ## Claim theorems -/

set_option maxRecDepth 16384
set_option maxHeartbeats 2000000

/-- Claim C1, counterexample.  The claim asserts that for every input the
output of `clean` contains no tag outside the allowed set and that every
`a` element carries no attribute other than `href`.  Both parts fail: an
`a` element without a quoted `href` passes every pass unchanged and keeps
its `class` attribute in the output, and the empty-paragraph cleanup can
splice surviving text into a brand-new disallowed tag (`<list>`). -/
theorem c1_allowlist_counterexample :
    cleanHtml "<a class=\"x\">y</a>" = "<a class=\"x\">y</a>" ∧
    cleanHtml "<li<p></p>st>more" = "<list>more" :=
  ⟨rfl, rfl⟩

/-- Claim C1, amended.  The allow-listing holds in the intended cases: an
`a` element with a whitespace-separated quoted `href` is rewritten to
`<a href="...">` dropping the other attributes, a disallowed element is
unwrapped while its text is kept, and attributes on allow-listed tags are
stripped; but it is not a for-all-inputs invariant (see the
counterexample). -/
theorem c1_allowlist_amended :
    cleanHtml "<a href=\"u\" class=\"c\">y</a>" = "<a href=\"u\">y</a>" ∧
    cleanHtml "<table><p>z</p></table>" = "<p>z</p>" ∧
    cleanHtml "<p onclick=\"f()\">t</p><span>u</span>" = "<p>t</p>u" :=
  ⟨rfl, rfl, rfl⟩

/-- Claim C2, counterexample.  The claim says the trailing-meta stage
removes everything from the earliest occurrence of any marker to the end.
On `<p foo="<hr">seo</p>` the administrative-label paragraph pattern (for
the label `seo`) matches at position 0 — so the claimed behaviour would
leave the empty string — yet the stage output is the nonempty `<p foo="`,
because the `<hr>` pass runs first, truncates inside the quoted attribute,
and destroys the earlier-starting label marker. -/
theorem c2_truncation_counterexample :
    pLabelHit ["seo".data] ("<p foo=\"<hr\">seo</p>".data) = true ∧
    trailingMetaStage ("<p foo=\"<hr\">seo</p>".data) = "<p foo=\"".data ∧
    trailingMetaStage ("<p foo=\"<hr\">seo</p>".data) ≠ [] :=
  ⟨rfl, rfl, by decide⟩

/-- Claim C2, amended.  The stage applies its truncation patterns
sequentially (`<hr>`, then each administrative label as paragraph, heading
and bold-run, then separator runs), each pass truncating from the leftmost
match of its own pattern, so the result is always a prefix of the input;
this coincides with the earliest marker except when an earlier pass's
pattern begins strictly inside a later pass's marker.  On the spec's
example the output keeps `Intro` and drops `SEO Title`. -/
theorem c2_truncation_amended :
    (∀ l : List Char, trailingMetaStage l <+: l) ∧
    cleanHtml "<p>Intro</p><hr><p>SEO Title: X</p>" = "<p>Intro</p>" ∧
    hasSub "Intro" (cleanHtml "<p>Intro</p><hr><p>SEO Title: X</p>") = true ∧
    hasSub "SEO Title" (cleanHtml "<p>Intro</p><hr><p>SEO Title: X</p>") = false :=
  ⟨trailingMetaStage_prefixOf, rfl, rfl, rfl⟩

/-- Claim C3, counterexample.  `<p>a</p>-<p></p>--` uses only allow-listed
tags, yet `clean` is not idempotent on it: the empty-paragraph removal
joins `-` and `--` into a `---` separator run, which only the next pass's
trailing-meta truncation removes. -/
theorem c3_idempotence_counterexample :
    onlyAllowedTags ("<p>a</p>-<p></p>--".data) = true ∧
    cleanHtml (cleanHtml "<p>a</p>-<p></p>--") ≠ cleanHtml "<p>a</p>-<p></p>--" := by
  constructor
  · rfl
  · have h1 : cleanHtml "<p>a</p>-<p></p>--" = "<p>a</p>---" := rfl
    rw [h1]
    have h2 : cleanHtml "<p>a</p>---" = "<p>a</p>" := rfl
    rw [h2]
    decide

/-- Claim C3, amended.  A second pass can make further changes on
allow-listed markup whenever the whitespace/empty-paragraph cleanup
creates a new trailing-meta marker: the counterexample input cleans to
`<p>a</p>---`, which a second pass truncates to `<p>a</p>`.  On
allow-listed markup where no new marker is created the second pass makes
no further changes (the whitespace passes and the paragraph-spacing
reinsertion are stable under reapplication). -/
theorem c3_idempotence_amended :
    cleanHtml "<p>a</p>-<p></p>--" = "<p>a</p>---" ∧
    cleanHtml "<p>a</p>---" = "<p>a</p>" ∧
    cleanHtml (cleanHtml "<h1>T</h1><p>B</p>") = cleanHtml "<h1>T</h1><p>B</p>" ∧
    cleanHtml (cleanHtml "<p>one</p>  <p>two</p>") = cleanHtml "<p>one</p>  <p>two</p>" := by
  refine ⟨rfl, rfl, ?_, ?_⟩
  · have h1 : cleanHtml "<h1>T</h1><p>B</p>" = "<h1>T</h1>\n\n<p>B</p>" := rfl
    rw [h1]
    rfl
  · have h1 : cleanHtml "<p>one</p>  <p>two</p>" = "<p>one</p>\n\n<p>two</p>" := rfl
    rw [h1]
    rfl

/-- Claim C4: h1 wins over h2 even when the h2 occurs earlier; only when no
h1 exists is the first h2 used; on the spec's example the title is `A`,
the h1 element is removed and the h2 remains. -/
theorem c4_title_precedence :
    extractTitleFromContent "<h2>B</h2><h1>A</h1>" =
      ⟨some "A", "<h2>B</h2>"⟩ ∧
    (∀ l m, firstH1 l = some m → chosenHeading l = some m) ∧
    (∀ l, firstH1 l = none → chosenHeading l = firstH2 l) := by
  refine ⟨rfl, ?_, ?_⟩
  · intro l m h
    unfold chosenHeading
    rw [h]
  · intro l h
    unfold chosenHeading
    rw [h]

theorem c4_title_precedence_witness :
    chosenHeading ("<h2>B</h2><h1>A</h1>".data) =
      some ("<h1>A</h1>".data, "A".data) :=
  c4_title_precedence.2.1 _ _ (by decide)

/-- Claim C5: the returned title is the heading interior with nested tags
stripped, the six entities decoded and the result trimmed; a heading whose
decoded text trims to empty yields a `none` title while the heading is
still removed. -/
theorem c5_title_decoding :
    extractTitleFromContent "<h1>Tom &amp; Jerry</h1>" = ⟨some "Tom & Jerry", ""⟩ ∧
    extractTitleFromContent "<h1>&lt;b&gt; &quot;q&quot; &#39;a&#39; &amp;c</h1><p>x</p>" =
      ⟨some "<b> \"q\" 'a' &c", "<p>x</p>"⟩ ∧
    extractTitleFromContent "<p>x</p><h1> &nbsp; </h1>" = ⟨none, "<p>x</p>"⟩ :=
  ⟨rfl, rfl, rfl⟩

/-- Claim C6, counterexample.  The claim says `text/plain` content has its
frontmatter stripped and is trimmed like markdown; in fact the
`text/plain` branch returns the content unchanged: on a frontmatter
document it keeps the block that the markdown path would strip. -/
theorem c6_plaintext_counterexample :
    processDocument "---\nkey: v\n---\nBody" "text/plain" "notes.txt" =
      ProcResult.text "---\nkey: v\n---\nBody" ∧
    processMarkdown "---\nkey: v\n---\nBody" = "Body" ∧
    ("---\nkey: v\n---\nBody" : String) ≠ "Body" :=
  ⟨rfl, rfl, by decide⟩

/-- Claim C6, amended.  Only the `text/markdown` and `text/x-markdown`
branches strip frontmatter and trim (via `processMarkdown`); the
`text/plain` branch returns the content entirely unchanged. -/
theorem c6_plaintext_amended (content fileName : String) :
    processDocument content "text/plain" fileName = ProcResult.text content ∧
    processDocument content "text/markdown" fileName =
      ProcResult.text (processMarkdown content) ∧
    processDocument content "text/x-markdown" fileName =
      ProcResult.text (processMarkdown content) :=
  ⟨rfl, rfl, rfl⟩

/-- Claim C7: `processDocument` fails with the unsupported-format error
exactly when the declared type is none of the seven recognized strings and
the display name does not end in `.md`; with an unrecognized type but a
`.md` name the content is processed as markdown. -/
theorem c7_dispatch_errors (c mt fn : String) :
    ((processDocument c mt fn).isUnsupported = true ↔
      (mt ∉ recognizedTypes ∧ strEndsWith fn ".md" = false)) ∧
    ((mt ∉ recognizedTypes ∧ strEndsWith fn ".md" = true) →
      processDocument c mt fn = ProcResult.text (processMarkdown c)) := by
  unfold processDocument
  split_ifs with h1 h2 h3 h4 h5 h6 h7 h8 <;>
    simp_all [recognizedTypes, ProcResult.isUnsupported]

theorem c7_dispatch_errors_witness :
    processDocument "x" "image/png" "a.md" = ProcResult.text (processMarkdown "x") ∧
    (processDocument "x" "image/png" "a.png").isUnsupported = true := by
  constructor
  · exact (c7_dispatch_errors "x" "image/png" "a.md").2 ⟨by decide, by decide⟩
  · exact (c7_dispatch_errors "x" "image/png" "a.png").1.mpr ⟨by decide, by decide⟩

/-- Claim C8: the frontmatter round-trip on the spec's concrete input. -/
theorem c8_frontmatter_roundtrip :
    processMarkdown "---\nkey: v\n---\nBody" = "Body" ∧
    extractFrontmatter "---\nkey: v\n---\nBody" = some [("key", "v")] :=
  ⟨rfl, rfl⟩

/-- Claim C9, counterexample.  The claim says `extractFrontmatter` parses
exactly the block `processMarkdown` strips.  But the stripping regex
requires a newline after the closing `---` while the parsing regex does
not: on `---\nkey: v\n---` the parser returns a mapping while the stripper
removes nothing. -/
theorem c9_frontmatter_counterexample :
    extractFrontmatter "---\nkey: v\n---" = some [("key", "v")] ∧
    stripFmMatch ("---\nkey: v\n---".data) = none ∧
    processMarkdown "---\nkey: v\n---" = "---\nkey: v\n---" :=
  ⟨rfl, rfl, rfl⟩

/-- Claim C9, amended.  `extractFrontmatter` recognizes a superset of the
blocks `processMarkdown` strips (its closing delimiter needs no trailing
newline): whenever the stripper finds a block, the parser returns a
mapping, but not conversely. -/
theorem c9_frontmatter_amended (s : String)
    (h : (stripFmMatch s.data).isSome = true) :
    (extractFrontmatter s).isSome = true := by
  unfold stripFmMatch at h
  unfold extractFrontmatter extractFmMatch
  split at h
  · next hp =>
    rw [if_pos hp]
    have h2 : (findSub "\n---".data (s.data.drop 4)).isSome = true :=
      findSub_isSome_mono "\n---".data "\n---\n".data (by decide) _ h
    cases hk : findSub "\n---".data (s.data.drop 4) with
    | none => rw [hk] at h2; simp at h2
    | some k => rfl
  · simp at h

theorem c9_frontmatter_amended_witness :
    (extractFrontmatter "---\nkey: v\n---\nBody").isSome = true :=
  c9_frontmatter_amended _ (by decide)

/-- Claim C10: on any input containing no `<` at all (raw extracted plain
text), `clean` returns the empty string — the leading-noise pass deletes
everything before the first tag, which is the entire input. -/
theorem c10_no_tags_empty (s : String) (h : '<' ∉ s.data) : cleanHtml s = "" := by
  unfold cleanHtml
  rw [cleanHtmlL_no_lt_nil s.data h]

theorem c10_no_tags_empty_witness :
    cleanHtml "Raw extracted PDF text, destroyed." = "" :=
  c10_no_tags_empty _ (by decide)

end GcsAdmin
